import Mathlib

/-!
Whitespace Overview Engine: verification of spec claims.

A shallow embedding of the numeric core of `src/app/overview_api.py` and
`src/app/overview_signals.py` of the `synapseip` repository, together with
theorems settling the frozen claims about the natural-language specification.

Modelling conventions:
* Python/numpy floating-point values are modelled as exact rationals (`ℚ`)
  where the source only performs field operations, and as real numbers (`ℝ`)
  where the source applies `exp`/`sqrt` (proximity, slope t-statistics).
* Calendar dates handled through `datetime.date` are modelled as day numbers
  (`ℤ`): Python date comparison, subtraction (`.days`) and `timedelta`
  addition correspond exactly to the same operations on day numbers.
* Database dates in the `patent` table are integers in `YYYYMMDD` form
  (see `etl.py`: `pub_date: int`, and the casts
  `to_date(p.pub_date::text, 'YYYYMMDD')` elsewhere in the repository); SQL
  arithmetic on them is plain integer arithmetic.
-/

set_option autoImplicit false

namespace Overview

open Classical

/-! Calendar helpers.

`ymdToDays` converts a proleptic-Gregorian civil date to a day count
(days from epoch, the standard civil-calendar algorithm), used to express
"90 days before a date" when dates are stored as `YYYYMMDD` integers. -/

def ymdToDays (y m d : ℤ) : ℤ :=
  let y2 : ℤ := if m ≤ 2 then y - 1 else y
  let era : ℤ := (if 0 ≤ y2 then y2 else y2 - 399) / 400
  let yoe : ℤ := y2 - era * 400
  let mp : ℤ := (m + 9) % 12
  let doy : ℤ := (153 * mp + 2) / 5 + d - 1
  let doe : ℤ := yoe * 365 + yoe / 4 - yoe / 100 + doy
  era * 146097 + doe - 719468

/-- Day number of a `YYYYMMDD` integer date. -/
def intDateToDays (v : ℤ) : ℤ :=
  ymdToDays (v / 10000) ((v / 100) % 100) (v % 100)

/-! Momentum Engine (`neighbor_momentum`, overview_api.py lines 1240-1289).

The SQL aggregation joins each labelled publication to its `pub_date`
(an integer `YYYYMMDD` value) and computes, with a single global cutoff
`MAX(pub_date) - 90` (integer subtraction):

    GREATEST(0.0, SUM(CASE WHEN pub_date >= c THEN 1.0 ELSE -0.25 END))

per `cluster_id`, returning rows ordered by cluster id.  The Python wrapper
packs those rows into a dense array indexed by cluster id and divides by the
global maximum when it is positive.

We model the joined relation `d` as a list of `(cluster_id, pub_date)` pairs
with integer `YYYYMMDD` dates. -/

/-- Maximum of a list of integers, `Option.none` on the empty list
(Python `max`, SQL `MAX`). -/
def listMax : List ℤ → Option ℤ :=
  List.foldl (fun acc x =>
    match acc with
    | Option.none => some x
    | some m => some (max m x)) Option.none

/-- Minimum of a list of integers, `Option.none` on the empty list. -/
def listMin : List ℤ → Option ℤ :=
  List.foldl (fun acc x =>
    match acc with
    | Option.none => some x
    | some m => some (min m x)) Option.none

/-- The SQL cutoff `(MAX(pub_date) - 90)` over all rows of `d`:
integer subtraction on the `YYYYMMDD` value. -/
def sqlCutoff (d : List (ℕ × ℤ)) : Option ℤ :=
  (listMax (d.map Prod.snd)).map (fun m => m - 90)

/-- Maximum of two rationals, written with an explicit `if` so that
concrete inputs evaluate by kernel reduction; `qmax_eq_max` below shows it
is the lattice `max`. -/
def qmax (a b : ℚ) : ℚ := if a ≤ b then b else a

/-- `CASE WHEN pub_date >= c THEN 1.0 ELSE -0.25 END`. -/
def momCase (c pd : ℤ) : ℚ :=
  if c ≤ pd then 1 else -(1/4)

/-- Raw per-cluster momentum
`GREATEST(0.0, SUM(CASE WHEN pub_date >= c THEN 1.0 ELSE -0.25 END))`
for cluster `cid`, with the global SQL cutoff. -/
def rawMomentum (d : List (ℕ × ℤ)) (cid : ℕ) : ℚ :=
  match sqlCutoff d with
  | Option.none => 0
  | some c =>
      qmax 0 (((d.filter (fun r => r.1 = cid)).map (fun r => momCase c r.2)).sum)

/-- The distinct cluster ids appearing in `d`, in increasing order
(the SQL `GROUP BY cluster_id ... ORDER BY cluster_id`). -/
def clusterIdList (d : List (ℕ × ℤ)) : List ℕ :=
  (List.range (((d.map Prod.fst).foldl max 0) + 1)).filter
    (fun c => (d.map Prod.fst).contains c)

/-- The rows returned by the SQL statement: `(cluster_id, m)` ordered by
cluster id, one row per cluster present in `d`. -/
def sqlRows (d : List (ℕ × ℤ)) : List (ℕ × ℚ) :=
  (clusterIdList d).map (fun c => (c, rawMomentum d c))

/-- `neighbor_momentum` (Python part, lines 1278-1289): if the SQL returned
no rows, a zero array of length `labels.max()+1`; otherwise a dense array of
length `max_cid+1` filled from the rows, divided by its maximum when that
maximum is positive. -/
def momentumArr (rows : List (ℕ × ℚ)) : List ℚ :=
  (List.range (((rows.map Prod.fst).foldl max 0) + 1)).map
    (fun c => ((rows.lookup c).getD 0))

def neighbor_momentum (d : List (ℕ × ℤ)) (labelsMax : ℕ) : List ℚ :=
  match sqlRows d with
  | [] => List.replicate (labelsMax + 1) 0
  | (r :: rs) =>
      let arr := momentumArr (r :: rs)
      let mmax := arr.foldl qmax 0
      if 0 < mmax then arr.map (fun q => q / mmax) else arr

/-! Rolling evaluation window (`_window_bounds`, lines 1542-1565).

`req.date_from`/`req.date_to` are parsed with `_parse_date_str` into optional
dates; nodes carry optional dates.  All date arithmetic here is in days, so
dates are day numbers (`ℤ`). -/

/-- The window end (line 1550): `min(latest, req_end)` when an end date was
requested, else the latest dated node. -/
def windowEnd (rt : Option ℤ) (latest : ℤ) : ℤ :=
  match rt with
  | some r => min latest r
  | Option.none => latest

/-- The window start before the earliest-node clamp (lines 1551-1559). -/
def windowStart0 (rf : Option ℤ) (endD : ℤ) : ℤ :=
  match rf with
  | some r0 =>
      if r0 ≤ endD then
        let span := endD - r0
        let spanDays := if 0 < span then min (max span 180) 365 else 365
        max r0 (endD - spanDays)
      else endD - 365
  | Option.none => endD - 365

/-- The window start after the earliest-node clamp (lines 1560-1561). -/
def windowStart (rf : Option ℤ) (endD earliest : ℤ) : ℤ :=
  if windowStart0 rf endD < earliest then earliest else windowStart0 rf endD

/-- `_window_bounds`: faithful embedding over day numbers.  Returns
`Option.none` when the group has no dated member or the clamped window spans
fewer than 60 days, otherwise `some (start_date, end_date)`. -/
def window_bounds (rf rt : Option ℤ) (ds : List (Option ℤ)) :
    Option (ℤ × ℤ) :=
  let dated := ds.filterMap id
  match listMax dated, listMin dated with
  | some latest, some earliest =>
      let endD : ℤ := windowEnd rt latest
      let startD : ℤ := windowStart rf endD earliest
      if endD - startD < 60 then Option.none else some (startD, endD)
  | _, _ => Option.none

/-- The latest dated node of a group (`max(n.pub_date for ...)`). -/
def latestDated (ds : List (Option ℤ)) : Option ℤ :=
  listMax (ds.filterMap id)

/-! Signal layer (`overview_signals.py`).

Floating-point values are modelled as real numbers; the Python `bool` flag
`ok` is modelled as a `Prop`.  The `debug` dictionary carried by
`SignalComputation` is diagnostic metadata never read by any claim-relevant
code path and is omitted from the record. -/

/-- `np.clip(x, lo, hi) = np.minimum(np.maximum(x, lo), hi)`. -/
noncomputable def clip (x lo hi : ℝ) : ℝ := min (max x lo) hi

inductive SignalKind where
  | focus_shift
  | emerging_gap
  | crowd_out
  | bridge
deriving DecidableEq, Repr

inductive SignalStatus where
  | none
  | weak
  | medium
  | strong
deriving DecidableEq, Repr

/-- Outcome of evaluating a single signal rule
(`SignalComputation`, overview_signals.py lines 19-27). -/
structure SignalComputation where
  ok : Prop
  confidence : ℝ
  message : String

/-- `SignalComputation.status` (lines 28-36): map the confidence value to a
discrete status bucket.  Note the first branch fires when `ok` is false OR
the confidence is not positive. -/
noncomputable def SignalComputation.status (s : SignalComputation) : SignalStatus :=
  if ¬ s.ok ∨ s.confidence ≤ 0 then SignalStatus.none
  else if (0.66 : ℝ) ≤ s.confidence then SignalStatus.strong
  else if (0.33 : ℝ) ≤ s.confidence then SignalStatus.medium
  else SignalStatus.weak

/-- Mean of a list of reals (`np.mean`). -/
noncomputable def lmean (l : List ℝ) : ℝ := l.sum / l.length

/-- Population standard deviation of a list of reals (`np.std`). -/
noncomputable def lstd (l : List ℝ) : ℝ :=
  Real.sqrt ((l.map (fun v => (v - lmean l) ^ 2)).sum / l.length)

/-- The standardized abscissa of `slope_conf` (lines 44-45):
`x = (arange(n) - mean) / (std + 1e-9)`. -/
noncomputable def stdAbscissa (n : ℕ) : List ℝ :=
  let x0 : List ℝ := (List.range n).map (fun i => (i : ℝ))
  x0.map (fun v => (v - lmean x0) / (lstd x0 + 1e-9))

/-- The least-squares slope for design matrix `np.c_[x, 1]` (line 47).
Since the abscissa is mean-centred (`sum x = 0`) and non-constant for
`n >= 2`, the design matrix has full column rank and the unique
least-squares solution of `lstsq` decouples into
`slope = sum (x*y) / sum (x^2)` and `intercept = mean y`. -/
noncomputable def lstsqSlope (xs ys : List ℝ) : ℝ :=
  (List.zipWith (fun a b => a * b) xs ys).sum / (xs.map (fun v => v ^ 2)).sum

/-- The least-squares residuals `y - A @ beta` (line 49). -/
noncomputable def lstsqResid (xs ys : List ℝ) : List ℝ :=
  List.zipWith (fun x y => y - (lstsqSlope xs ys * x + lmean ys)) xs ys

/-- The t-statistic proxy `|slope / se|` with
`se = (resid.std() + 1e-9) / sqrt((x**2).sum())` (lines 50-51). -/
noncomputable def tValue (xs ys : List ℝ) : ℝ :=
  |lstsqSlope xs ys /
    ((lstd (lstsqResid xs ys) + 1e-9) /
      Real.sqrt ((xs.map (fun v => v ^ 2)).sum))|

/-- `slope_conf` (overview_signals.py lines 39-52): slope and a t-statistic
confidence proxy for a time series. -/
noncomputable def slope_conf (ys : List ℝ) : ℝ × ℝ :=
  if ys.length < 2 then (0, 0)
  else (lstsqSlope (stdAbscissa ys.length) ys,
        tValue (stdAbscissa ys.length) ys)

/-- `signal_focus_shift` (overview_signals.py lines 63-101): detect whether
filings are converging toward the keyword focus. -/
noncomputable def signal_focus_shift (distSeries shareSeries : List ℝ)
    (nSamples : ℕ) : SignalComputation :=
  if distSeries.length < 3 ∨ shareSeries.length < 3 ∨ nSamples < 4 then
    { ok := False, confidence := 0,
      message := "Not enough recent filings to judge movement toward focus input(s)." }
  else
    let sd : ℝ := (slope_conf (distSeries.map (fun v => -v))).1
    let td : ℝ := (slope_conf (distSeries.map (fun v => -v))).2
    let ss : ℝ := (slope_conf shareSeries).1
    let ts : ℝ := (slope_conf shareSeries).2
    let trendVotes : ℕ := (if 0 < sd then 1 else 0) + (if 0 < ss then 1 else 0)
    let ok : Prop := 1 ≤ trendVotes ∧ (-0.02 : ℝ) < sd ∧ (-0.02 : ℝ) < ss
    let conf0 : ℝ :=
      min 1 (0.5 * (max 0 td + max 0 ts)) * min 1 ((nSamples : ℝ) / 40)
    let conf1 : ℝ := if trendVotes = 1 then conf0 * 0.6 else conf0
    let conf2 : ℝ := clip conf1 0 1
    { ok := ok
      confidence := if ok then conf2 else 0
      message :=
        if ¬ ok then
          "Assignee\x27s recent filings are anchored in prior subject matter scope; no persistent convergence toward focus input(s) is evident. Higher whitespace potential."
        else if trendVotes = 1 then
          "Assignee\x27s recent filings are converging toward focus input(s), but no clear pattern across volume and subject matter. Moderate whitespace potential."
        else
          "Assignee\x27s recent filings converge around focus input(s) and now comprise a growing share of Assignee\x27s portfolio. Lower whitespace potential." }

/-! Group signal payloads (`build_group_signals`, overview_api.py
lines 1639-1873). -/

/-- `SIGNAL_LABELS` (overview_api.py lines 657-662). -/
def SIGNAL_LABELS : SignalKind → String
  | SignalKind.focus_shift => "Convergence Toward Focus Area"
  | SignalKind.emerging_gap => "Focus Area With Neighbor Underdevelopment"
  | SignalKind.crowd_out => "Sharply Rising Density Near Focus Area"
  | SignalKind.bridge => "Neighbor Linking Potential Near Focus Area"

/-- The fields of a `SignalPayload` response row relevant to the claims
(`debug` omitted: it is echoed diagnostics). -/
structure SignalPayloadM where
  type : SignalKind
  status : SignalStatus
  confidence : ℝ
  why : String
  node_ids : List String

/-- The `SignalComputation` used for every rule when a group has
insufficient history (lines 1731-1734). -/
def notEnoughHistory : SignalComputation :=
  { ok := False, confidence := 0, message := "Not enough history for this scope." }

/-- The four payloads emitted for a group with insufficient history
(lines 1735-1740), in source order. -/
noncomputable def insufficientPayloads : List SignalPayloadM :=
  [ { type := SignalKind.emerging_gap, status := notEnoughHistory.status,
      confidence := 0, why := notEnoughHistory.message, node_ids := [] },
    { type := SignalKind.bridge, status := notEnoughHistory.status,
      confidence := 0, why := notEnoughHistory.message, node_ids := [] },
    { type := SignalKind.crowd_out, status := notEnoughHistory.status,
      confidence := 0, why := notEnoughHistory.message, node_ids := [] },
    { type := SignalKind.focus_shift, status := notEnoughHistory.status,
      confidence := 0, why := notEnoughHistory.message, node_ids := [] } ]

/-- The per-group branch of `build_group_signals` (lines 1720-1752): when
`_window_bounds` yields no window the group gets `insufficientPayloads` and
the trend machinery is skipped; otherwise the payloads computed from the
bucket series (`computed`, abstracted here as a parameter: the claims about
this branch hold for every value of the window-present result). -/
noncomputable def groupSignalsBranch (w : Option (ℤ × ℤ))
    (computed : List SignalPayloadM) : List SignalPayloadM :=
  match w with
  | Option.none => insufficientPayloads
  | some _ => computed

/-! Node attribution (`_payload`, overview_api.py lines 1813-1830, and the
fold over the four signals in lines 1832-1837).

The three accumulation dictionaries (`node_signals`, `node_relevance`,
`node_tooltips`) are modelled as total functions with the same defaults the
source reads them with (`defaultdict(set)`, `.get(nid, 0.0)`, absent key). -/

structure AttribState where
  sigs : String → List SignalKind
  rel : String → ℝ
  tip : String → Option String

def initAttrib : AttribState :=
  { sigs := fun _ => [], rel := fun _ => 0, tip := fun _ => Option.none }

/-- Set-insert for the `node_signals[nid].add(kind)` update. -/
def addKind (k : SignalKind) (l : List SignalKind) : List SignalKind :=
  if k ∈ l then l else l ++ [k]

/-- The per-node-id body of `_payload` (lines 1823-1829): for one attributed
node id, record the signal kind, overwrite the tooltip when
`conf >= current_conf`, and raise the stored relevance to
`max(current_conf, conf)`. -/
noncomputable def attribNode (kind : SignalKind) (conf : ℝ) (msg : String)
    (s : AttribState) (nid : String) : AttribState :=
  let tooltipMsg := SIGNAL_LABELS kind ++ ": " ++ msg
  let current := s.rel nid
  { sigs := fun x => if x = nid then addKind kind (s.sigs x) else s.sigs x
    rel := fun x => if x = nid then max current conf else s.rel x
    tip := fun x =>
      if x = nid ∧ current ≤ conf then some tooltipMsg else s.tip x }

/-- The `for nid in node_ids` loop of `_payload` (lines 1823-1829). -/
noncomputable def payloadStep (kind : SignalKind) (conf : ℝ) (msg : String)
    (ids : List String) (st : AttribState) : AttribState :=
  ids.foldl (attribNode kind conf msg) st

/-- A call of `_payload`: the confidence written into both the payload and
the attribution maps is `clip(result.confidence, 0, 1)` (line 1814). -/
structure PayloadIn where
  kind : SignalKind
  result_confidence : ℝ
  message : String
  node_ids : List String

noncomputable def payloadApply (st : AttribState) (p : PayloadIn) : AttribState :=
  payloadStep p.kind (clip p.result_confidence 0 1) p.message p.node_ids st

/-- The attribution state after the four `_payload` calls of lines
1832-1837, executed in source order
(`emerging_gap`, `bridge`, `crowd_out`, `focus_shift`). -/
noncomputable def attribRun (ps : List PayloadIn) : AttribState :=
  ps.foldl payloadApply initAttrib

/-- The clipped confidence a payload contributes. -/
noncomputable def clippedConf (p : PayloadIn) : ℝ := clip p.result_confidence 0 1

/-- Maximum clipped confidence over the payloads attributing node `n`
(0 when none do: the `defaultdict(float)` base value). -/
noncomputable def relMax (n : String) (ps : List PayloadIn) : ℝ :=
  ps.foldl
    (fun acc p => if n ∈ p.node_ids then max acc (clippedConf p) else acc) 0

/-- Tooltip text a payload would write for its nodes (line 1824). -/
noncomputable def tipFor (p : PayloadIn) : String :=
  SIGNAL_LABELS p.kind ++ ": " ++ p.message

/-- The payloads attributing node `n`, in attribution order. -/
noncomputable def attributing (n : String) (ps : List PayloadIn) :
    List PayloadIn :=
  ps.filter (fun p => n ∈ p.node_ids)

/-- The last payload, in attribution order, whose clipped confidence
achieves the maximum among those attributing `n` (`Option.none` when no
payload attributes `n`).  Under the source tie-break
(`if conf >= current_conf`) this payload owns the final tooltip. -/
noncomputable def lastMaxPayload (n : String) (ps : List PayloadIn) :
    Option PayloadIn :=
  ((attributing n ps).filter
    (fun p => clippedConf p = relMax n ps)).getLast?

/-! Graph response assembly (`get_overview_graph`,
overview_api.py lines 2371-2406). -/

/-- Node relevance emitted in the graph response (lines 2375-2377 and 2387):
the attributed relevance, replaced by `0.15` when it is not positive, then
clipped to `[0.05, 1.0]`. -/
noncomputable def emittedRelevance (rel : String → ℝ) (nid : String) : ℝ :=
  let r0 := rel nid
  let r1 := if r0 ≤ 0 then (0.15 : ℝ) else r0
  clip r1 0.05 1

/-! KNN graph (`build_knn`, line 1194-1197) and the edge list of the graph
response (lines 2397-2406).

`build_knn` wraps `sklearn.NearestNeighbors(metric="cosine").kneighbors(X)`
over the candidate matrix, which `load_embeddings` has already L2-normalized
(lines 1188-1191), so the cosine distance of two rows is `1 -` their dot
product.  Each neighbor row lists the `k` nearest indices in non-decreasing
distance order; the ranking of equal distances is not specified by the
source beyond stability (spec section 4.2), and in particular the self index
is not guaranteed to occupy position 0 (spec section 3).  The embedding
realizes one admissible ranking: ties are ordered by index. -/

def cosDist (a b : List ℚ) : ℚ :=
  1 - (List.zipWith (fun x y => x * y) a b).sum

/-- Lexicographic order on (distance, index) pairs. -/
def pairLe (p q : ℚ × ℕ) : Bool :=
  p.1 < q.1 || (p.1 = q.1 && p.2 ≤ q.2)

def insertLe {α : Type} (le : α → α → Bool) (a : α) : List α → List α
  | [] => [a]
  | b :: bs => if le a b then a :: b :: bs else b :: insertLe le a bs

/-- Insertion sort (ascending under `le`). -/
def sortLe {α : Type} (le : α → α → Bool) : List α → List α
  | [] => []
  | a :: as => insertLe le a (sortLe le as)

/-- One row of the KNN result: the `k` nearest `(distance, index)` pairs for
query point `i`, nearest first. -/
def knnRow (X : List (List ℚ)) (i k : ℕ) : List (ℚ × ℕ) :=
  (sortLe pairLe
    ((List.range X.length).map
      (fun j => (cosDist (X.getD i []) (X.getD j []), j)))).take k

/-- `build_knn(X, k)`: the `(dist, idx)` matrices. -/
def build_knn (X : List (List ℚ)) (k : ℕ) : List (List ℚ) × List (List ℕ) :=
  ((List.range X.length).map (fun i => (knnRow X i k).map Prod.fst),
   (List.range X.length).map (fun i => (knnRow X i k).map Prod.snd))

/-- The edge list of the graph response (lines 2397-2406): for every node
`i`, one edge per neighbor position `1..10` (`idx[i, 1:11]`), with weight
`1 - dist[i, jpos]`.  Position 0 is dropped; no other self filtering is
performed. -/
def graphEdges (pubIds : List String) (dist : List (List ℚ))
    (idx : List (List ℕ)) : List (String × String × ℚ) :=
  ((List.range pubIds.length).map (fun i =>
    ((List.zip ((idx.getD i []).drop 1) ((dist.getD i []).drop 1)).take 10).map
      (fun jw => (pubIds.getD i "", pubIds.getD jw.1 "", 1 - jw.2)))).flatten

/-! Whitespace Scorer (`compute_overview_metrics`,
overview_api.py lines 1292-1365).

The candidate matrix is a function `Fin N → Fin D → ℝ`; cluster labels are
integers (`-1` marks noise), the per-cluster momentum vector is a list that
the source zero-pads on demand (line 1354), so out-of-range labels read 0. -/

/-- Indices flagged by `focus_mask`. -/
def focusSet {N : ℕ} (mask : Fin N → Bool) : Finset (Fin N) :=
  Finset.univ.filter (fun i => mask i = true)

/-- The focus vector `F` (lines 1325-1331): mean of the focus rows if any,
otherwise mean of all rows. -/
noncomputable def focusVector {N D : ℕ} (X : Fin N → Fin D → ℝ)
    (mask : Fin N → Bool) : Fin D → ℝ :=
  if (focusSet mask).Nonempty then
    fun j => (∑ i ∈ focusSet mask, X i j) / (focusSet mask).card
  else
    fun j => (∑ i, X i j) / N

/-- Effective decay `alpha_eff` (lines 1327, 1330): halved when there is no
explicit focus row. -/
noncomputable def alphaEff {N : ℕ} (mask : Fin N → Bool) (alpha : ℝ) : ℝ :=
  if (focusSet mask).Nonempty then alpha else alpha * 0.5

/-- Euclidean distance of row `i` to the focus vector (line 1335). -/
noncomputable def distToFocus {N D : ℕ} (X : Fin N → Fin D → ℝ)
    (mask : Fin N → Bool) (i : Fin N) : ℝ :=
  Real.sqrt (∑ j, (X i j - focusVector X mask j) ^ 2)

/-- `proximity = exp(-alpha_eff * d)` (line 1336). -/
noncomputable def proximity {N D : ℕ} (X : Fin N → Fin D → ℝ)
    (mask : Fin N → Bool) (alpha : ℝ) (i : Fin N) : ℝ :=
  Real.exp (-(alphaEff mask alpha) * distToFocus X mask i)

/-- `sparsity = clip(1 - (dens - dmin)/denom, 0, 1)` (lines 1339-1343), with
`denom = dmax - dmin` when `dmax > dmin`, else 1. -/
noncomputable def sparsity {N : ℕ} [NeZero N] (dens : Fin N → ℝ)
    (i : Fin N) : ℝ :=
  let dmin := Finset.univ.inf' Finset.univ_nonempty dens
  let dmax := Finset.univ.sup' Finset.univ_nonempty dens
  let denom := if dmin < dmax then dmax - dmin else 1
  clip (1 - (dens i - dmin) / denom) 0 1

/-- Per-item cluster momentum (lines 1346-1358): 0 for noise labels,
zero-padded lookup for labels beyond the momentum vector, then clipped to
`[0, 1]`. -/
noncomputable def itemMomentum {N : ℕ} (labels : Fin N → ℤ)
    (momentum : List ℝ) (i : Fin N) : ℝ :=
  clip (if 0 ≤ labels i then momentum.getD (labels i).toNat 0 else 0) 0 1

/-- `penalty = clip(1 - beta * mom, 0, 1)` (lines 1359-1360). -/
noncomputable def momentumPenalty {N : ℕ} (labels : Fin N → ℤ)
    (momentum : List ℝ) (beta : ℝ) (i : Fin N) : ℝ :=
  clip (1 - beta * itemMomentum labels momentum i) 0 1

/-- `compute_overview_metrics` (lines 1292-1365): returns
`(score, proximity, distance, focus_vector)`; the score is the product of
proximity, sparsity and momentum penalty, forced to 0 on focus rows
(lines 1363-1364). -/
noncomputable def compute_overview_metrics {N D : ℕ} [NeZero N]
    (X : Fin N → Fin D → ℝ) (labels : Fin N → ℤ) (dens : Fin N → ℝ)
    (mask : Fin N → Bool) (alpha beta : ℝ) (momentum : List ℝ) :
    (Fin N → ℝ) × (Fin N → ℝ) × (Fin N → ℝ) × (Fin D → ℝ) :=
  ( fun i => if mask i = true then 0 else
      proximity X mask alpha i * sparsity dens i *
        momentumPenalty labels momentum beta i,
    fun i => proximity X mask alpha i,
    fun i => distToFocus X mask i,
    focusVector X mask )

/-! Spec-side reading of the momentum cutoff.

The spec states the member dates of a cluster are split at
`cutoff = max(date) - 90 days`.  With dates stored as `YYYYMMDD` integers, a
date is on or after that cutoff exactly when its day number is at least the
day number of the maximum date minus 90.  The following definition follows
the words of the spec and is compared against the source-derived
`rawMomentum`. -/

/-- Modelled from the spec: raw per-cluster momentum with the cutoff taken
as 90 calendar days before the maximum member date
(`+1` on or after the cutoff, `-0.25` before, floored at 0). -/
def rawMomentumSpec (d : List (ℕ × ℤ)) (cid : ℕ) : ℚ :=
  match listMax ((d.filter (fun r => r.1 = cid)).map Prod.snd) with
  | Option.none => 0
  | some m =>
      qmax 0 (((d.filter (fun r => r.1 = cid)).map
        (fun r =>
          if intDateToDays m - 90 ≤ intDateToDays r.2 then (1 : ℚ)
          else -(1/4))).sum)

/-! Theorems.  Shared helper lemmas come first, then one theorem per claim
(with a witness or counterexample where required). -/

theorem qmax_eq_max (a b : ℚ) : qmax a b = max a b := by
  rw [max_def, qmax]

theorem foldl_qmax_eq_foldl_max (l : List ℚ) (a : ℚ) :
    l.foldl qmax a = l.foldl max a := by
  induction l generalizing a with
  | nil => rfl
  | cons b bs ih => rw [List.foldl_cons, List.foldl_cons, qmax_eq_max, ih]

theorem le_foldl_max_init {α : Type} [LinearOrder α] (l : List α) (a : α) :
    a ≤ l.foldl max a := by
  induction l generalizing a with
  | nil => exact le_refl a
  | cons b bs ih => exact le_trans (le_max_left a b) (ih (max a b))

theorem mem_le_foldl_max {α : Type} [LinearOrder α] {l : List α} {x : α}
    (hx : x ∈ l) (a : α) : x ≤ l.foldl max a := by
  induction l generalizing a with
  | nil => cases hx
  | cons b bs ih =>
    rcases List.mem_cons.mp hx with h | h
    · subst h
      exact le_trans (le_max_right a x) (le_foldl_max_init bs (max a x))
    · exact ih h (max a b)

theorem foldl_max_le {α : Type} [LinearOrder α] {l : List α} {a b : α}
    (ha : a ≤ b) (h : ∀ x ∈ l, x ≤ b) : l.foldl max a ≤ b := by
  induction l generalizing a with
  | nil => exact ha
  | cons c cs ih =>
    exact ih (max_le ha (h c (List.mem_cons_self c cs)))
      (fun x hx => h x (List.mem_cons_of_mem c hx))

theorem rawMomentum_nonneg (d : List (ℕ × ℤ)) (c : ℕ) :
    0 ≤ rawMomentum d c := by
  unfold rawMomentum
  cases sqlCutoff d with
  | none => exact le_refl 0
  | some v =>
    change 0 ≤ qmax 0 _
    rw [qmax_eq_max]
    exact le_max_left 0 _

theorem sqlRows_snd_eq {d : List (ℕ × ℤ)} {r : ℕ × ℚ} (hr : r ∈ sqlRows d) :
    r.2 = rawMomentum d r.1 := by
  unfold sqlRows at hr
  rcases List.mem_map.mp hr with ⟨c, _, rfl⟩
  rfl

theorem lookup_some_mem {l : List (ℕ × ℚ)} {c : ℕ} {v : ℚ}
    (h : l.lookup c = some v) : (c, v) ∈ l := by
  induction l with
  | nil => simp [List.lookup] at h
  | cons p ps ih =>
    cases p with
    | mk k w =>
      by_cases hc : c = k
      · subst hc
        simp [List.lookup] at h
        simp [h]
      · rw [List.lookup] at h
        have hbeq : (c == k) = false := beq_false_of_ne hc
        rw [hbeq] at h
        exact List.mem_cons_of_mem _ (ih h)

theorem sqlRows_snd_nonneg {d : List (ℕ × ℤ)} {r : ℕ × ℚ}
    (hr : r ∈ sqlRows d) : 0 ≤ r.2 := by
  rw [sqlRows_snd_eq hr]
  exact rawMomentum_nonneg d r.1

theorem momentumArr_mem_nonneg {rows : List (ℕ × ℚ)}
    (hnn : ∀ r ∈ rows, 0 ≤ r.2) {q : ℚ}
    (hq : q ∈ momentumArr rows) : 0 ≤ q := by
  unfold momentumArr at hq
  rcases List.mem_map.mp hq with ⟨c, _, rfl⟩
  cases hl : rows.lookup c with
  | none => simp [hl]
  | some v =>
    have hv : (c, v) ∈ rows := lookup_some_mem hl
    simpa [hl] using hnn (c, v) hv

theorem momentumArr_mem_eq_zero {rows : List (ℕ × ℚ)}
    (hz : ∀ r ∈ rows, r.2 = 0) {q : ℚ}
    (hq : q ∈ momentumArr rows) : q = 0 := by
  unfold momentumArr at hq
  rcases List.mem_map.mp hq with ⟨c, _, rfl⟩
  cases hl : rows.lookup c with
  | none => simp [hl]
  | some v =>
    have hv : (c, v) ∈ rows := lookup_some_mem hl
    simpa [hl] using hz (c, v) hv

theorem momentumArr_getElem?_of_lookup_none {rows : List (ℕ × ℚ)} {c : ℕ}
    (hl : rows.lookup c = Option.none) {q : ℚ}
    (hq : (momentumArr rows)[c]? = some q) : q = 0 := by
  unfold momentumArr at hq
  rw [List.getElem?_map] at hq
  by_cases hc : c < ((rows.map Prod.fst).foldl max 0) + 1
  · rw [List.getElem?_range hc] at hq
    simp [hl] at hq
    exact hq.symm
  · rw [List.getElem?_eq_none (by simpa using le_of_not_lt hc)] at hq
    cases hq

/-- C2: for every input to the momentum computation, every entry of the
returned per-cluster momentum array lies in `[0, 1]`; if every aggregated
row carries a floored raw score of 0 the array is all zeros (the
normalizing division is skipped, so no division by zero occurs); and every
cluster id absent from the aggregated rows reads as momentum 0. -/
theorem neighbor_momentum_nil {d : List (ℕ × ℤ)} (hrows : sqlRows d = [])
    (lm : ℕ) : neighbor_momentum d lm = List.replicate (lm + 1) 0 := by
  unfold neighbor_momentum
  rw [hrows]

theorem neighbor_momentum_cons {d : List (ℕ × ℤ)} {r : ℕ × ℚ}
    {rs : List (ℕ × ℚ)} (hrows : sqlRows d = r :: rs) (lm : ℕ) :
    neighbor_momentum d lm =
      (if 0 < (momentumArr (r :: rs)).foldl qmax 0
       then (momentumArr (r :: rs)).map
         (fun q => q / (momentumArr (r :: rs)).foldl qmax 0)
       else momentumArr (r :: rs)) := by
  unfold neighbor_momentum
  rw [hrows]

/-- C2: for every input to the momentum computation, every entry of the
returned per-cluster momentum array lies in `[0, 1]`; if every aggregated
row carries a floored raw score of 0 the array is all zeros (the
normalizing division is skipped, so no division by zero occurs); and every
cluster id absent from the aggregated rows reads as momentum 0. -/
theorem neighbor_momentum_invariants (d : List (ℕ × ℤ)) (lm : ℕ) :
    (∀ q ∈ neighbor_momentum d lm, 0 ≤ q ∧ q ≤ 1) ∧
    ((∀ r ∈ sqlRows d, r.2 = 0) → ∀ q ∈ neighbor_momentum d lm, q = 0) ∧
    (∀ c : ℕ, (sqlRows d).lookup c = Option.none →
      ∀ q : ℚ, (neighbor_momentum d lm)[c]? = some q → q = 0) := by
  have hnn : ∀ r ∈ sqlRows d, 0 ≤ r.2 := fun r hr => sqlRows_snd_nonneg hr
  cases hrows : sqlRows d with
  | nil =>
    rw [neighbor_momentum_nil hrows lm]
    refine ⟨?_, ?_, ?_⟩
    · intro q hq
      have hq0 : q = 0 := List.eq_of_mem_replicate hq
      subst hq0
      exact ⟨le_refl 0, by norm_num⟩
    · intro _ q hq
      exact List.eq_of_mem_replicate hq
    · intro c _ q hq
      exact List.eq_of_mem_replicate (List.getElem?_mem hq)
  | cons r rs =>
    rw [hrows] at hnn
    rw [neighbor_momentum_cons hrows lm]
    rw [foldl_qmax_eq_foldl_max]
    refine ⟨?_, ?_, ?_⟩
    · intro q hq
      by_cases hpos : 0 < (momentumArr (r :: rs)).foldl max 0
      · rw [if_pos hpos] at hq
        rcases List.mem_map.mp hq with ⟨p, hp, rfl⟩
        have hp0 : 0 ≤ p := momentumArr_mem_nonneg hnn hp
        have hple : p ≤ (momentumArr (r :: rs)).foldl max 0 :=
          mem_le_foldl_max hp 0
        exact ⟨div_nonneg hp0 (le_of_lt hpos), (div_le_one hpos).mpr hple⟩
      · rw [if_neg hpos] at hq
        have hq0 : 0 ≤ q := momentumArr_mem_nonneg hnn hq
        have hqle : q ≤ (momentumArr (r :: rs)).foldl max 0 :=
          mem_le_foldl_max hq 0
        exact ⟨hq0, le_trans hqle (le_trans (le_of_not_lt hpos) zero_le_one)⟩
    · intro hz q hq
      have hz2 : ∀ x ∈ momentumArr (r :: rs), x = 0 :=
        fun x hx => momentumArr_mem_eq_zero hz hx
      have hle : (momentumArr (r :: rs)).foldl max 0 ≤ 0 :=
        foldl_max_le (le_refl 0) (fun x hx => le_of_eq (hz2 x hx))
      rw [if_neg (not_lt_of_le hle)] at hq
      exact hz2 q hq
    · intro c hl q hq
      by_cases hpos : 0 < (momentumArr (r :: rs)).foldl max 0
      · rw [if_pos hpos] at hq
        rw [List.getElem?_map] at hq
        cases harr : (momentumArr (r :: rs))[c]? with
        | none => rw [harr] at hq; cases hq
        | some p =>
          rw [harr] at hq
          have hp0 : p = 0 := momentumArr_getElem?_of_lookup_none hl harr
          have hpq : p / (momentumArr (r :: rs)).foldl max 0 = q :=
            Option.some.inj hq
          rw [← hpq, hp0, zero_div]
      · rw [if_neg hpos] at hq
        exact momentumArr_getElem?_of_lookup_none hl hq

/-- Witness for C2 at a concrete input: a single row
`(cluster 0, pub_date 20240601)` yields the momentum array `[1]`, whose
entry obeys the proven bounds, and an absent cluster id reads as 0. -/
theorem neighbor_momentum_invariants_witness :
    ((1 : ℚ) ∈ neighbor_momentum [(0, 20240601)] 0 ∧
      0 ≤ (1 : ℚ) ∧ (1 : ℚ) ≤ 1) ∧
    ((sqlRows [(0, 20240601)]).lookup 5 = Option.none) := by
  have hmem : (1 : ℚ) ∈ neighbor_momentum [(0, 20240601)] 0 := by
    rw [show neighbor_momentum [(0, 20240601)] 0 = [1] from by
      with_unfolding_all rfl]
    exact List.mem_singleton.mpr rfl
  exact ⟨⟨hmem, (neighbor_momentum_invariants [(0, 20240601)] 0).1 1 hmem⟩,
    by with_unfolding_all rfl⟩

/-- C3 (code bug): the `patent.pub_date` column holds integer `YYYYMMDD`
values, so the SQL cutoff `MAX(pub_date) - 90` is plain integer
subtraction, not a 90-day offset.  For a single cluster with member dates
2024-06-01 and 2024-05-10 (22 days apart, so both fall within 90 days of
the maximum), the code computes cutoff `20240511` and scores the older
filing `-0.25`, yielding a raw momentum of `3/4`, while the specified
raw momentum (cutoff 90 calendar days before the maximum member date)
is `2`. -/
theorem rawMomentum_cutoff_bug :
    rawMomentum [(0, 20240601), (0, 20240510)] 0 = 3/4 ∧
    rawMomentumSpec [(0, 20240601), (0, 20240510)] 0 = 2 ∧
    intDateToDays 20240601 - intDateToDays 20240510 = 22 ∧
    (3/4 : ℚ) ≠ 2 := by
  refine ⟨by with_unfolding_all rfl, by with_unfolding_all rfl,
    by decide, by norm_num⟩

/-- C4: a group whose dated members span fewer than 60 days after window
clamping, or which has no dated member at all (exactly the cases in which
`_window_bounds` yields no window), receives all four signals in the fixed
order `emerging_gap, bridge, crowd_out, focus_shift` with status `none`,
confidence 0 and the explicit not-enough-history message, for every
possible value of the trend-computation branch, which is therefore never
consulted. -/
theorem window_insufficiency (rf rt : Option ℤ) (ds : List (Option ℤ))
    (computed : List SignalPayloadM)
    (h : window_bounds rf rt ds = Option.none) :
    groupSignalsBranch (window_bounds rf rt ds) computed =
      insufficientPayloads ∧
    insufficientPayloads.map SignalPayloadM.type =
      [SignalKind.emerging_gap, SignalKind.bridge, SignalKind.crowd_out,
        SignalKind.focus_shift] ∧
    ∀ p ∈ insufficientPayloads,
      p.status = SignalStatus.none ∧ p.confidence = 0 ∧
      p.why = "Not enough history for this scope." := by
  have hst : notEnoughHistory.status = SignalStatus.none := by
    unfold notEnoughHistory SignalComputation.status
    simp
  refine ⟨by rw [h]; rfl, rfl, ?_⟩
  intro p hp
  simp only [insufficientPayloads, List.mem_cons, List.not_mem_nil,
    or_false] at hp
  rcases hp with rfl | rfl | rfl | rfl
  · exact ⟨hst, rfl, rfl⟩
  · exact ⟨hst, rfl, rfl⟩
  · exact ⟨hst, rfl, rfl⟩
  · exact ⟨hst, rfl, rfl⟩

/-- Witness for C4: a group whose two dated members are 30 days apart has
no window, and its signal branch is the insufficient-history payload. -/
theorem window_insufficiency_witness :
    window_bounds Option.none Option.none [some 0, some 30] = Option.none ∧
    groupSignalsBranch
      (window_bounds Option.none Option.none [some 0, some 30]) [] =
      insufficientPayloads := by
  have h : window_bounds Option.none Option.none [some 0, some 30] =
      Option.none := by decide
  exact ⟨h,
    (window_insufficiency Option.none Option.none [some 0, some 30] [] h).1⟩

/-- C6 (counterexample): with request end-date day 2000, no start date, and
group member dates at days 0 and 1000, the code evaluates the window as
`[635, 1000]`: its end is day 1000, the earlier of the latest dated node
and the request end-date, whereas the claimed value (the later of the two,
capped to the request upper bound) is day 2000. -/
theorem window_end_counterexample :
    window_bounds Option.none (some 2000) [some 0, some 1000] =
      some (635, 1000) ∧
    ¬ ((1000 : ℤ) = min (max 2000 1000) 2000) := by
  exact ⟨by decide, by decide⟩

/-- C6 (amended): for every retained group with at least one dated member,
the window end date equals the earlier of the latest dated node and the
request end-date (the latest dated node when no end-date was requested). -/
theorem window_end_amended (rf rt : Option ℤ) (ds : List (Option ℤ))
    (s e : ℤ) (h : window_bounds rf rt ds = some (s, e)) :
    ∃ latest, latestDated ds = some latest ∧
      e = min latest (rt.getD latest) := by
  unfold window_bounds at h
  dsimp only at h
  unfold latestDated
  cases hmax : listMax (ds.filterMap id) with
  | none => rw [hmax] at h; cases h
  | some latest =>
    cases hmin : listMin (ds.filterMap id) with
    | none => rw [hmax, hmin] at h; cases h
    | some earliest =>
      rw [hmax, hmin] at h
      dsimp only at h
      refine ⟨latest, rfl, ?_⟩
      split at h
      · cases h
      · have hpair := Option.some.inj h
        have he : windowEnd rt latest = e := congrArg Prod.snd hpair
        cases rt with
        | none =>
          have h1 : windowEnd Option.none latest = latest := rfl
          rw [h1] at he
          rw [← he]
          exact (min_self latest).symm
        | some r =>
          have h1 : windowEnd (some r) latest = min latest r := rfl
          rw [h1] at he
          rw [← he]
          rfl

/-- C7 (counterexample): a signal computation with `ok` true and confidence
0 is reported with status `none`, not `weak`: the status rule also maps
non-positive confidences to `none`. -/
theorem status_zero_conf_counterexample :
    SignalComputation.status { ok := True, confidence := 0, message := "" } =
      SignalStatus.none ∧
    SignalStatus.none ≠ SignalStatus.weak := by
  constructor
  · unfold SignalComputation.status
    simp
  · intro hc
    cases hc

/-- C7 (amended): the reported status is `none` exactly when `ok` is false
or the confidence is not positive; when `ok` holds and the confidence is
positive, the status is `strong` iff confidence ≥ 0.66, `medium` iff
0.33 ≤ confidence < 0.66, and `weak` iff confidence < 0.33. -/
theorem status_amended (s : SignalComputation) :
    (s.status = SignalStatus.none ↔ (¬ s.ok ∨ s.confidence ≤ 0)) ∧
    (s.ok → 0 < s.confidence →
      ((s.status = SignalStatus.strong ↔ (0.66 : ℝ) ≤ s.confidence) ∧
       (s.status = SignalStatus.medium ↔
         ((0.33 : ℝ) ≤ s.confidence ∧ s.confidence < 0.66)) ∧
       (s.status = SignalStatus.weak ↔ s.confidence < 0.33))) := by
  unfold SignalComputation.status
  by_cases h1 : ¬ s.ok ∨ s.confidence ≤ 0
  · rw [if_pos h1]
    refine ⟨⟨fun _ => h1, fun _ => rfl⟩, ?_⟩
    intro hok hpos
    rcases h1 with h | h
    · exact absurd hok h
    · exact absurd hpos (not_lt.mpr h)
  · rw [if_neg h1]
    by_cases h2 : (0.66 : ℝ) ≤ s.confidence
    · rw [if_pos h2]
      refine ⟨⟨fun hc => SignalStatus.noConfusion hc,
        fun hc => absurd hc h1⟩, ?_⟩
      intro _ _
      refine ⟨⟨fun _ => h2, fun _ => rfl⟩,
        ⟨fun hc => SignalStatus.noConfusion hc,
          fun hc => absurd h2 (not_le.mpr hc.2)⟩,
        ⟨fun hc => SignalStatus.noConfusion hc, fun hc => by linarith⟩⟩
    · rw [if_neg h2]
      by_cases h3 : (0.33 : ℝ) ≤ s.confidence
      · rw [if_pos h3]
        refine ⟨⟨fun hc => SignalStatus.noConfusion hc,
          fun hc => absurd hc h1⟩, ?_⟩
        intro _ _
        refine ⟨⟨fun hc => SignalStatus.noConfusion hc,
            fun hc => absurd hc h2⟩,
          ⟨fun _ => ⟨h3, not_le.mp h2⟩, fun _ => rfl⟩,
          ⟨fun hc => SignalStatus.noConfusion hc,
            fun hc => absurd h3 (not_le.mpr hc)⟩⟩
      · rw [if_neg h3]
        refine ⟨⟨fun hc => SignalStatus.noConfusion hc,
          fun hc => absurd hc h1⟩, ?_⟩
        intro _ _
        refine ⟨⟨fun hc => SignalStatus.noConfusion hc,
            fun hc => absurd hc h2⟩,
          ⟨fun hc => SignalStatus.noConfusion hc,
            fun hc => absurd hc.1 h3⟩,
          ⟨fun _ => not_le.mp h3, fun _ => rfl⟩⟩

/-- Witness for the amended C7 at a concrete computation: `ok` true with
confidence 1 reports status `strong`. -/
theorem status_amended_witness :
    SignalComputation.status { ok := True, confidence := 1, message := "" } =
      SignalStatus.strong := by
  have h := (status_amended { ok := True, confidence := 1, message := "" }).2
    trivial (by norm_num)
  exact h.1.mpr (by norm_num)

theorem payloadStep_nil (k : SignalKind) (c : ℝ) (m : String)
    (st : AttribState) : payloadStep k c m [] st = st := rfl

theorem payloadStep_cons (k : SignalKind) (c : ℝ) (m : String) (a : String)
    (as : List String) (st : AttribState) :
    payloadStep k c m (a :: as) st =
      payloadStep k c m as (attribNode k c m st a) := rfl

theorem attribNode_rel_ne {k : SignalKind} {c : ℝ} {m : String}
    {s : AttribState} {nid n : String} (h : n ≠ nid) :
    (attribNode k c m s nid).rel n = s.rel n := by
  simp only [attribNode]
  rw [if_neg h]

theorem attribNode_rel_self (k : SignalKind) (c : ℝ) (m : String)
    (s : AttribState) (nid : String) :
    (attribNode k c m s nid).rel nid = max (s.rel nid) c := by
  simp only [attribNode]
  rw [if_pos trivial]

theorem attribNode_tip_ne {k : SignalKind} {c : ℝ} {m : String}
    {s : AttribState} {nid n : String} (h : n ≠ nid) :
    (attribNode k c m s nid).tip n = s.tip n := by
  simp only [attribNode]
  rw [if_neg (fun hc => h hc.1)]

theorem attribNode_tip_self {k : SignalKind} {c : ℝ} {m : String}
    {s : AttribState} {nid : String} (h : s.rel nid ≤ c) :
    (attribNode k c m s nid).tip nid =
      some (SIGNAL_LABELS k ++ ": " ++ m) := by
  simp only [attribNode]
  rw [if_pos ⟨trivial, h⟩]

theorem payloadStep_rel_not_mem {k : SignalKind} {c : ℝ} {m : String}
    {ids : List String} {st : AttribState} {n : String} (hn : n ∉ ids) :
    (payloadStep k c m ids st).rel n = st.rel n := by
  induction ids generalizing st with
  | nil => rfl
  | cons a as ih =>
    have hna : n ≠ a := fun h => hn (h ▸ List.mem_cons_self a as)
    have hnas : n ∉ as := fun h => hn (List.mem_cons_of_mem a h)
    rw [payloadStep_cons, ih hnas, attribNode_rel_ne hna]

theorem payloadStep_rel_mem {k : SignalKind} {c : ℝ} {m : String}
    {ids : List String} {st : AttribState} {n : String} (hn : n ∈ ids) :
    (payloadStep k c m ids st).rel n = max (st.rel n) c := by
  induction ids generalizing st with
  | nil => cases hn
  | cons a as ih =>
    rw [payloadStep_cons]
    by_cases hna : n = a
    · subst hna
      by_cases hmem : n ∈ as
      · rw [ih hmem, attribNode_rel_self, max_assoc, max_self]
      · rw [payloadStep_rel_not_mem hmem, attribNode_rel_self]
    · have hmem : n ∈ as := by
        rcases List.mem_cons.mp hn with h | h
        · exact absurd h hna
        · exact h
      rw [ih hmem, attribNode_rel_ne hna]

theorem payloadStep_tip_not_mem {k : SignalKind} {c : ℝ} {m : String}
    {ids : List String} {st : AttribState} {n : String} (hn : n ∉ ids) :
    (payloadStep k c m ids st).tip n = st.tip n := by
  induction ids generalizing st with
  | nil => rfl
  | cons a as ih =>
    have hna : n ≠ a := fun h => hn (h ▸ List.mem_cons_self a as)
    have hnas : n ∉ as := fun h => hn (List.mem_cons_of_mem a h)
    rw [payloadStep_cons, ih hnas, attribNode_tip_ne hna]

theorem payloadStep_tip_mem {k : SignalKind} {c : ℝ} {m : String}
    {ids : List String} {st : AttribState} {n : String} (hn : n ∈ ids)
    (hc : st.rel n ≤ c) :
    (payloadStep k c m ids st).tip n =
      some (SIGNAL_LABELS k ++ ": " ++ m) := by
  induction ids generalizing st with
  | nil => cases hn
  | cons a as ih =>
    rw [payloadStep_cons]
    by_cases hna : n = a
    · subst hna
      by_cases hmem : n ∈ as
      · refine ih hmem ?_
        rw [attribNode_rel_self]
        exact max_le hc le_rfl
      · rw [payloadStep_tip_not_mem hmem]
        exact attribNode_tip_self hc
    · have hmem : n ∈ as := by
        rcases List.mem_cons.mp hn with h | h
        · exact absurd h hna
        · exact h
      refine (ih hmem ?_).trans rfl
      rw [attribNode_rel_ne hna]
      exact hc

theorem foldl_payloadApply_rel (ps : List PayloadIn) (st : AttribState)
    (n : String) :
    (ps.foldl payloadApply st).rel n =
      ps.foldl
        (fun acc p => if n ∈ p.node_ids then max acc (clippedConf p) else acc)
        (st.rel n) := by
  induction ps generalizing st with
  | nil => rfl
  | cons p ps ih =>
    rw [List.foldl_cons, List.foldl_cons, ih]
    congr 1
    by_cases hmem : n ∈ p.node_ids
    · rw [if_pos hmem]
      exact payloadStep_rel_mem hmem
    · rw [if_neg hmem]
      exact payloadStep_rel_not_mem hmem

theorem attribRun_rel (ps : List PayloadIn) (n : String) :
    (attribRun ps).rel n = relMax n ps :=
  foldl_payloadApply_rel ps initAttrib n

theorem relMax_eq_zero {n : String} {ps : List PayloadIn}
    (h : ∀ p ∈ ps, n ∉ p.node_ids) : relMax n ps = 0 := by
  unfold relMax
  induction ps with
  | nil => rfl
  | cons p ps ih =>
    rw [List.foldl_cons, if_neg (h p (List.mem_cons_self p ps))]
    exact ih (fun q hq => h q (List.mem_cons_of_mem p hq))

theorem clip_half : clip 0.5 0 1 = (0.5 : ℝ) := by
  unfold clip
  rw [max_eq_left (by norm_num), min_eq_left (by norm_num)]

theorem clip_of_mem {x : ℝ} (h0 : 0 ≤ x) (h1 : x ≤ 1) : clip x 0 1 = x := by
  unfold clip
  rw [max_eq_left h0, min_eq_left h1]

/-- C8 (counterexample): two signals attribute node `"n"` with equal clipped
confidence 0.5.  The earlier signal in attribution order is `emerging_gap`,
so under the claimed tie-break the tooltip would be its message; the code
(`if conf >= current_conf`) lets the later `bridge` payload overwrite the
tooltip, so the emitted tooltip is the `bridge` message. -/
theorem attribution_tie_counterexample :
    (attribRun
      [ { kind := SignalKind.emerging_gap, result_confidence := 0.5,
          message := "A", node_ids := ["n"] },
        { kind := SignalKind.bridge, result_confidence := 0.5,
          message := "B", node_ids := ["n"] } ]).rel "n" = 0.5 ∧
    (attribRun
      [ { kind := SignalKind.emerging_gap, result_confidence := 0.5,
          message := "A", node_ids := ["n"] },
        { kind := SignalKind.bridge, result_confidence := 0.5,
          message := "B", node_ids := ["n"] } ]).tip "n" =
      some "Neighbor Linking Potential Near Focus Area: B" ∧
    some "Neighbor Linking Potential Near Focus Area: B" ≠
      some "Focus Area With Neighbor Underdevelopment: A" := by
  have hmem : "n" ∈ ["n"] := List.mem_singleton.mpr rfl
  have hrel1 :
      (attribRun
        [ { kind := SignalKind.emerging_gap, result_confidence := 0.5,
            message := "A", node_ids := ["n"] } ]).rel "n" = 0.5 := by
    rw [attribRun_rel]
    unfold relMax
    rw [List.foldl_cons, if_pos hmem]
    show List.foldl _ (max 0 (clip 0.5 0 1)) [] = 0.5
    rw [List.foldl_nil, clip_half, max_eq_right (by norm_num)]
  refine ⟨?_, ?_, by simp⟩
  · rw [attribRun_rel]
    unfold relMax
    rw [List.foldl_cons, List.foldl_cons, if_pos hmem, if_pos hmem,
      List.foldl_nil]
    show max (max 0 (clip 0.5 0 1)) (clip 0.5 0 1) = 0.5
    rw [clip_half, max_eq_right (by norm_num)]
  · have hsplit :
        attribRun
          [ { kind := SignalKind.emerging_gap, result_confidence := 0.5,
              message := "A", node_ids := ["n"] },
            { kind := SignalKind.bridge, result_confidence := 0.5,
              message := "B", node_ids := ["n"] } ] =
          payloadApply
            (attribRun
              [ { kind := SignalKind.emerging_gap, result_confidence := 0.5,
                  message := "A", node_ids := ["n"] } ])
            { kind := SignalKind.bridge, result_confidence := 0.5,
              message := "B", node_ids := ["n"] } := rfl
    rw [hsplit]
    have hc :
        (attribRun
          [ { kind := SignalKind.emerging_gap, result_confidence := 0.5,
              message := "A", node_ids := ["n"] } ]).rel "n" ≤
          clip (0.5 : ℝ) 0 1 := by
      rw [hrel1, clip_half]
    exact payloadStep_tip_mem hmem hc

theorem clippedConf_nonneg (p : PayloadIn) : 0 ≤ clippedConf p := by
  unfold clippedConf clip
  exact le_min (le_max_right _ _) zero_le_one

theorem attribNode_tip_self_not_le {k : SignalKind} {c : ℝ} {m : String}
    {s : AttribState} {nid : String} (h : ¬ s.rel nid ≤ c) :
    (attribNode k c m s nid).tip nid = s.tip nid := by
  simp only [attribNode]
  rw [if_neg (fun hc => h hc.2)]

theorem payloadStep_tip_not_le {k : SignalKind} {c : ℝ} {m : String}
    {ids : List String} {st : AttribState} {n : String}
    (h : ¬ st.rel n ≤ c) :
    (payloadStep k c m ids st).tip n = st.tip n := by
  induction ids generalizing st with
  | nil => rfl
  | cons a as ih =>
    rw [payloadStep_cons]
    by_cases hna : n = a
    · subst hna
      have hrel : (attribNode k c m st n).rel n = max (st.rel n) c :=
        attribNode_rel_self k c m st n
      have h2 : ¬ (attribNode k c m st n).rel n ≤ c := by
        rw [hrel]
        exact fun hle => h (le_trans (le_max_left _ _) hle)
      rw [ih h2, attribNode_tip_self_not_le h]
    · have h2 : ¬ (attribNode k c m st a).rel n ≤ c := by
        rw [attribNode_rel_ne hna]
        exact h
      rw [ih h2, attribNode_tip_ne hna]

theorem relMax_concat (n : String) (qs : List PayloadIn) (p : PayloadIn) :
    relMax n (qs ++ [p]) =
      if n ∈ p.node_ids then max (relMax n qs) (clippedConf p)
      else relMax n qs := by
  unfold relMax
  rw [List.foldl_append]
  rfl

theorem attribRun_concat (qs : List PayloadIn) (p : PayloadIn) :
    attribRun (qs ++ [p]) = payloadApply (attribRun qs) p := by
  unfold attribRun
  rw [List.foldl_append]
  rfl

theorem attributing_concat_mem {n : String} {p : PayloadIn}
    (qs : List PayloadIn) (hmem : n ∈ p.node_ids) :
    attributing n (qs ++ [p]) = attributing n qs ++ [p] := by
  unfold attributing
  rw [List.filter_append]
  simp [List.filter_cons, hmem]

theorem attributing_concat_not_mem {n : String} {p : PayloadIn}
    (qs : List PayloadIn) (hmem : n ∉ p.node_ids) :
    attributing n (qs ++ [p]) = attributing n qs := by
  unfold attributing
  rw [List.filter_append]
  simp [List.filter_cons, hmem]

/-- C8 (amended): for every run of the `_payload` calls and every node,
the final relevance equals the maximum clipped confidence over the
payloads that attributed that node (0 when none did), and the final
tooltip is the tooltip of the LAST payload, in the attribution order
`emerging_gap, bridge, crowd_out, focus_shift`, whose clipped confidence
achieves that maximum (no tooltip when the node was never attributed):
ties are broken in favor of the later signal, not the earlier one. -/
theorem attribution_general (ps : List PayloadIn) (n : String) :
    (attribRun ps).rel n = relMax n ps ∧
    (attribRun ps).tip n = (lastMaxPayload n ps).map tipFor := by
  induction ps using List.reverseRecOn with
  | nil => exact ⟨rfl, rfl⟩
  | append_singleton qs p ih =>
    rw [attribRun_concat]
    by_cases hmem : n ∈ p.node_ids
    · have hrel : (payloadApply (attribRun qs) p).rel n =
          max ((attribRun qs).rel n) (clippedConf p) :=
        payloadStep_rel_mem hmem
      by_cases hle : relMax n qs ≤ clippedConf p
      · constructor
        · rw [hrel, ih.1, relMax_concat, if_pos hmem]
        · have htip : (payloadApply (attribRun qs) p).tip n =
              some (SIGNAL_LABELS p.kind ++ ": " ++ p.message) :=
            payloadStep_tip_mem hmem (by rw [ih.1]; exact hle)
          rw [htip]
          unfold lastMaxPayload
          rw [attributing_concat_mem qs hmem]
          simp only [relMax_concat, if_pos hmem, max_eq_right hle]
          rw [List.filter_append]
          simp only [List.filter_cons, List.filter_nil]
          have hif : (if decide True = true then [p] else ([] : List PayloadIn)) = [p] := by
            simp
          rw [hif, List.getLast?_concat]
          rfl
      · have hlt : clippedConf p < relMax n qs := not_le.mp hle
        constructor
        · rw [hrel, ih.1, relMax_concat, if_pos hmem,
            max_eq_left (le_of_lt hlt)]
        · have htip : (payloadApply (attribRun qs) p).tip n =
              (attribRun qs).tip n :=
            payloadStep_tip_not_le (by rw [ih.1]; exact hle)
          rw [htip, ih.2]
          unfold lastMaxPayload
          rw [attributing_concat_mem qs hmem]
          simp only [relMax_concat, if_pos hmem, max_eq_left (le_of_lt hlt)]
          rw [List.filter_append]
          have hne : ¬ (clippedConf p = relMax n qs) := ne_of_lt hlt
          simp only [List.filter_cons, List.filter_nil, decide_eq_true_eq,
            if_neg hne]
          rw [List.append_nil]
    · have hrel : (payloadApply (attribRun qs) p).rel n =
          (attribRun qs).rel n :=
        payloadStep_rel_not_mem hmem
      have htip : (payloadApply (attribRun qs) p).tip n =
          (attribRun qs).tip n :=
        payloadStep_tip_not_mem hmem
      constructor
      · rw [hrel, ih.1, relMax_concat, if_neg hmem]
      · rw [htip, ih.2]
        unfold lastMaxPayload
        rw [attributing_concat_not_mem qs hmem]
        simp only [relMax_concat, if_neg hmem]

/-- Witness for the amended C8 at a concrete run: `emerging_gap` at
confidence 0.8 followed by `focus_shift` at 0.3 on the same node leaves
relevance 0.8 and the `emerging_gap` tooltip. -/
theorem attribution_general_witness :
    (attribRun [(⟨SignalKind.emerging_gap, 0.8, "A", ["n"]⟩ : PayloadIn),
        ⟨SignalKind.focus_shift, 0.3, "B", ["n"]⟩]).rel "n" = 0.8 ∧
    (attribRun [(⟨SignalKind.emerging_gap, 0.8, "A", ["n"]⟩ : PayloadIn),
        ⟨SignalKind.focus_shift, 0.3, "B", ["n"]⟩]).tip "n" =
      some (tipFor (⟨SignalKind.emerging_gap, 0.8, "A", ["n"]⟩ : PayloadIn)) := by
  have hmem : "n" ∈ ["n"] := List.mem_singleton.mpr rfl
  have hc1 : clippedConf (⟨SignalKind.emerging_gap, 0.8, "A", ["n"]⟩ : PayloadIn) = 0.8 := by
    unfold clippedConf
    exact clip_of_mem (by norm_num) (by norm_num)
  have hc2 : clippedConf (⟨SignalKind.focus_shift, 0.3, "B", ["n"]⟩ : PayloadIn) = 0.3 := by
    unfold clippedConf
    exact clip_of_mem (by norm_num) (by norm_num)
  have hrelmax : relMax "n" [(⟨SignalKind.emerging_gap, 0.8, "A", ["n"]⟩ : PayloadIn),
      ⟨SignalKind.focus_shift, 0.3, "B", ["n"]⟩] = 0.8 := by
    unfold relMax
    simp only [List.foldl_cons, List.foldl_nil, hmem, if_true, hc1, hc2]
    rw [max_eq_right (by norm_num : (0 : ℝ) ≤ 0.8),
      max_eq_left (by norm_num : (0.3 : ℝ) ≤ 0.8)]
  have hattr : attributing "n" [(⟨SignalKind.emerging_gap, 0.8, "A", ["n"]⟩ : PayloadIn),
      ⟨SignalKind.focus_shift, 0.3, "B", ["n"]⟩] =
      [(⟨SignalKind.emerging_gap, 0.8, "A", ["n"]⟩ : PayloadIn),
        ⟨SignalKind.focus_shift, 0.3, "B", ["n"]⟩] := by
    unfold attributing
    simp [List.filter_cons, hmem]
  have hlast : lastMaxPayload "n" [(⟨SignalKind.emerging_gap, 0.8, "A", ["n"]⟩ : PayloadIn),
      ⟨SignalKind.focus_shift, 0.3, "B", ["n"]⟩] =
      some (⟨SignalKind.emerging_gap, 0.8, "A", ["n"]⟩ : PayloadIn) := by
    unfold lastMaxPayload
    rw [hattr]
    simp only [hrelmax, List.filter_cons, List.filter_nil,
      decide_eq_true_eq, hc1, hc2]
    rw [if_pos trivial, if_neg (by norm_num : ¬ (0.3 : ℝ) = 0.8)]
    rfl
  refine ⟨?_, ?_⟩
  · rw [(attribution_general [(⟨SignalKind.emerging_gap, 0.8, "A", ["n"]⟩ : PayloadIn),
      ⟨SignalKind.focus_shift, 0.3, "B", ["n"]⟩] "n").1, hrelmax]
  · rw [(attribution_general [(⟨SignalKind.emerging_gap, 0.8, "A", ["n"]⟩ : PayloadIn),
      ⟨SignalKind.focus_shift, 0.3, "B", ["n"]⟩] "n").2, hlast]
    rfl

/-- C10: every node relevance emitted in the graph response lies in
`[0.05, 1.0]`; a node attributed by no signal (whose relevance map reads
the default 0) or whose best attributed confidence is 0 is emitted with
relevance exactly 0.15 rather than 0. -/
theorem emitted_relevance_bounds (rel : String → ℝ) (n : String)
    (ps : List PayloadIn) :
    ((0.05 : ℝ) ≤ emittedRelevance rel n ∧ emittedRelevance rel n ≤ 1) ∧
    (rel n ≤ 0 → emittedRelevance rel n = 0.15) ∧
    ((∀ p ∈ ps, n ∉ p.node_ids) →
      emittedRelevance (attribRun ps).rel n = 0.15) := by
  have hz : ∀ r : String → ℝ, r n ≤ 0 → emittedRelevance r n = 0.15 := by
    intro r hr
    unfold emittedRelevance clip
    dsimp only
    rw [if_pos hr, max_eq_left (by norm_num), min_eq_left (by norm_num)]
  refine ⟨?_, hz rel, ?_⟩
  · unfold emittedRelevance clip
    exact ⟨le_min (le_max_right _ _) (by norm_num), min_le_right _ _⟩
  · intro hnone
    refine hz _ ?_
    rw [attribRun_rel, relMax_eq_zero hnone]

/-- Witness for C10: with an empty relevance map every node reads relevance
exactly 0.15, inside the `[0.05, 1]` band. -/
theorem emitted_relevance_bounds_witness :
    emittedRelevance (fun _ => (0 : ℝ)) "a" = 0.15 ∧
    (0.05 : ℝ) ≤ emittedRelevance (fun _ => (0 : ℝ)) "a" :=
  ⟨(emitted_relevance_bounds (fun _ => 0) "a" []).2.1 le_rfl,
    (emitted_relevance_bounds (fun _ => 0) "a" []).1.1⟩

/-- Witness for the amended C6: with no requested dates and member dates at
days 0 and 400, the window is `[35, 400]` and its end is the latest dated
node. -/
theorem window_end_amended_witness :
    window_bounds Option.none Option.none [some 0, some 400] =
      some (35, 400) ∧
    (∃ latest, latestDated [some 0, some 400] = some latest ∧
      (400 : ℤ) = min latest ((Option.none : Option ℤ).getD latest)) :=
  ⟨by decide,
    window_end_amended Option.none Option.none [some 0, some 400] 35 400
      (by decide)⟩

/-- C9 (code bug): the edge list of the graph response takes neighbor
positions `1..10` of each KNN row without filtering the self index.  With
duplicate vectors the self entry need not sit at position 0 (the spec
states `neighbor_index[i][0] == i` is NOT guaranteed and requires explicit
self filtering wherever neighbors are consumed, as every other consumer in
the file does): for the L2-normalized input `X = [[1,0],[1,0],[0,1]]` with
`k = 2`, under the admissible index tie-break, node 1 receives neighbor row
`[0, 1]` and the response contains the self-edge `("b", "b", 1)`. -/
theorem graphEdges_self_edge_bug :
    graphEdges ["a", "b", "c"]
      (build_knn [[1, 0], [1, 0], [0, 1]] 2).1
      (build_knn [[1, 0], [1, 0], [0, 1]] 2).2 =
      [("a", "b", (1 : ℚ)), ("b", "b", 1), ("c", "a", 0)] ∧
    ("b", "b", (1 : ℚ)) ∈
      graphEdges ["a", "b", "c"]
        (build_knn [[1, 0], [1, 0], [0, 1]] 2).1
        (build_knn [[1, 0], [1, 0], [0, 1]] 2).2 := by
  have h :
      graphEdges ["a", "b", "c"]
        (build_knn [[1, 0], [1, 0], [0, 1]] 2).1
        (build_knn [[1, 0], [1, 0], [0, 1]] 2).2 =
        [("a", "b", (1 : ℚ)), ("b", "b", 1), ("c", "a", 0)] := by
    with_unfolding_all rfl
  refine ⟨h, ?_⟩
  rw [h]
  exact List.mem_cons_of_mem _ (List.mem_cons_self _ _)

theorem clip_zero_one_mem (x : ℝ) : 0 ≤ clip x 0 1 ∧ clip x 0 1 ≤ 1 := by
  unfold clip
  exact ⟨le_min (le_max_right _ _) zero_le_one, min_le_right _ _⟩

theorem alphaEff_nonneg {N : ℕ} (mask : Fin N → Bool) {alpha : ℝ}
    (ha : 0 ≤ alpha) : 0 ≤ alphaEff mask alpha := by
  unfold alphaEff
  split
  · exact ha
  · exact mul_nonneg ha (by norm_num)

theorem proximity_le_one {N D : ℕ} (X : Fin N → Fin D → ℝ)
    (mask : Fin N → Bool) {alpha : ℝ} (ha : 0 ≤ alpha) (i : Fin N) :
    proximity X mask alpha i ≤ 1 := by
  unfold proximity
  rw [Real.exp_le_one_iff, neg_mul]
  exact neg_nonpos.mpr
    (mul_nonneg (alphaEff_nonneg mask ha) (Real.sqrt_nonneg _))

theorem sparsity_mem {N : ℕ} [NeZero N] (dens : Fin N → ℝ) (i : Fin N) :
    0 ≤ sparsity dens i ∧ sparsity dens i ≤ 1 := by
  unfold sparsity
  exact clip_zero_one_mem _

theorem momentumPenalty_mem {N : ℕ} (labels : Fin N → ℤ) (momentum : List ℝ)
    (beta : ℝ) (i : Fin N) :
    0 ≤ momentumPenalty labels momentum beta i ∧
      momentumPenalty labels momentum beta i ≤ 1 := by
  unfold momentumPenalty
  exact clip_zero_one_mem _

/-- C1: for every run of the whitespace scorer with `alpha ≥ 0` and
`beta ∈ [0, 1]`, every entry of the returned score array lies in `[0, 1]`,
and the score is exactly 0 at every index flagged by `focus_mask`. -/
theorem compute_overview_metrics_bounds {N D : ℕ} [NeZero N]
    (X : Fin N → Fin D → ℝ) (labels : Fin N → ℤ) (dens : Fin N → ℝ)
    (mask : Fin N → Bool) (alpha beta : ℝ) (momentum : List ℝ)
    (halpha : 0 ≤ alpha) (_hbeta0 : 0 ≤ beta) (_hbeta1 : beta ≤ 1)
    (i : Fin N) :
    (0 ≤ (compute_overview_metrics X labels dens mask alpha beta momentum).1 i ∧
      (compute_overview_metrics X labels dens mask alpha beta momentum).1 i ≤ 1) ∧
    (mask i = true →
      (compute_overview_metrics X labels dens mask alpha beta momentum).1 i = 0) := by
  have hscore :
      (compute_overview_metrics X labels dens mask alpha beta momentum).1 i =
        if mask i = true then 0 else
          proximity X mask alpha i * sparsity dens i *
            momentumPenalty labels momentum beta i := rfl
  rw [hscore]
  by_cases hm : mask i = true
  · rw [if_pos hm]
    exact ⟨⟨le_refl 0, zero_le_one⟩, fun _ => rfl⟩
  · rw [if_neg hm]
    have hp1 : 0 < proximity X mask alpha i := Real.exp_pos _
    have hp2 : proximity X mask alpha i ≤ 1 :=
      proximity_le_one X mask halpha i
    have hs := sparsity_mem dens i
    have hpen := momentumPenalty_mem labels momentum beta i
    refine ⟨⟨?_, ?_⟩, fun hm2 => absurd hm2 hm⟩
    · exact mul_nonneg (mul_nonneg (le_of_lt hp1) hs.1) hpen.1
    · exact mul_le_one₀ (mul_le_one₀ hp2 hs.1 hs.2) hpen.1 hpen.2

/-- Witness for C1 at a concrete run: one candidate, one dimension,
`alpha = 0`, `beta = 0`, no focus rows. -/
theorem compute_overview_metrics_bounds_witness :
    (0 : ℝ) ≤ 0 ∧ (0 : ℝ) ≤ 1 ∧
    ((0 ≤ (compute_overview_metrics (fun (_ : Fin 1) (_ : Fin 1) => (1 : ℝ))
          (fun _ => 0) (fun _ => 0) (fun _ => false) 0 0 []).1 0 ∧
        (compute_overview_metrics (fun (_ : Fin 1) (_ : Fin 1) => (1 : ℝ))
          (fun _ => 0) (fun _ => 0) (fun _ => false) 0 0 []).1 0 ≤ 1) ∧
      ((fun (_ : Fin 1) => false) 0 = true →
        (compute_overview_metrics (fun (_ : Fin 1) (_ : Fin 1) => (1 : ℝ))
          (fun _ => 0) (fun _ => 0) (fun _ => false) 0 0 []).1 0 = 0)) :=
  ⟨le_refl 0, zero_le_one,
    compute_overview_metrics_bounds (fun _ _ => 1) (fun _ => 0) (fun _ => 0)
      (fun _ => false) 0 0 [] (le_refl 0) (le_refl 0) zero_le_one 0⟩

theorem lmean_x3 : lmean [(0 : ℝ), 1, 2] = 1 := by
  unfold lmean
  norm_num

theorem lstd_x3 : lstd [(0 : ℝ), 1, 2] = Real.sqrt (2 / 3) := by
  unfold lstd
  rw [lmean_x3]
  norm_num

theorem lstd_zeros3 : lstd [(0 : ℝ), 0, 0] = 0 := by
  unfold lstd lmean
  norm_num

theorem sqrt23_add_pos : (0 : ℝ) < Real.sqrt (2 / 3) + 1e-9 := by
  positivity

theorem stdAbscissa_three :
    stdAbscissa 3 =
      [-(1 / (Real.sqrt (2 / 3) + 1e-9)), 0,
        1 / (Real.sqrt (2 / 3) + 1e-9)] := by
  unfold stdAbscissa
  have hr : ((List.range 3).map (fun i => (i : ℝ))) = [0, 1, 2] := by
    norm_num [List.range_succ]
  dsimp only
  rw [hr, lmean_x3, lstd_x3]
  simp only [List.map_cons, List.map_nil]
  rw [show ((0 : ℝ) - 1) = -1 by norm_num, neg_div,
    show ((1 : ℝ) - 1) = 0 by norm_num, zero_div,
    show ((2 : ℝ) - 1) = 1 by norm_num]

theorem sumsq_xs {c : ℝ} (hc : c ≠ 0) :
    ((([-(1 / c), 0, 1 / c]) : List ℝ).map (fun v => v ^ 2)).sum =
      2 / c ^ 2 := by
  simp only [List.map_cons, List.map_nil, List.sum_cons, List.sum_nil]
  field_simp
  ring

theorem lstsqSlope_xs {c : ℝ} (hc : c ≠ 0) (y0 y1 y2 : ℝ) :
    lstsqSlope [-(1 / c), 0, 1 / c] [y0, y1, y2] = c * (y2 - y0) / 2 := by
  unfold lstsqSlope
  simp only [List.zipWith_cons_cons, List.zipWith_nil_right, List.map_cons,
    List.map_nil, List.sum_cons, List.sum_nil]
  field_simp
  ring

theorem lmean_dist : lmean [(-3 : ℝ), -2, -1] = -2 := by
  unfold lmean
  norm_num

theorem lstsqResid_dist {c : ℝ} (hc : c ≠ 0) :
    lstsqResid [-(1 / c), 0, 1 / c] [(-3 : ℝ), -2, -1] = [0, 0, 0] := by
  unfold lstsqResid
  rw [lstsqSlope_xs hc, lmean_dist]
  simp only [List.zipWith_cons_cons, List.zipWith_nil_right]
  have hs : c * (-1 - -3) / 2 = c := by ring
  rw [hs]
  have e0 : (-3 : ℝ) - (c * -(1 / c) + -2) = 0 := by
    field_simp
    norm_num
  have e1 : (-2 : ℝ) - (c * 0 + -2) = 0 := by ring
  have e2 : (-1 : ℝ) - (c * (1 / c) + -2) = 0 := by
    field_simp
    norm_num
  rw [e0, e1, e2]

theorem lstsqResid_share {c : ℝ} :
    lstsqResid [-(1 / c), 0, 1 / c] [(0 : ℝ), 0, 0] = [0, 0, 0] := by
  unfold lstsqResid lmean lstsqSlope
  simp

theorem sqrt_sumsq_xs {c : ℝ} (hcpos : 0 < c) :
    Real.sqrt ((([-(1 / c), 0, 1 / c] : List ℝ).map (fun v => v ^ 2)).sum) =
      Real.sqrt 2 / c := by
  rw [sumsq_xs (ne_of_gt hcpos)]
  rw [Real.sqrt_div (by norm_num), Real.sqrt_sq (le_of_lt hcpos)]

theorem tValue_dist {c : ℝ} (hcpos : 0 < c) :
    tValue [-(1 / c), 0, 1 / c] [(-3 : ℝ), -2, -1] = Real.sqrt 2 * 1e9 := by
  unfold tValue
  rw [lstsqSlope_xs (ne_of_gt hcpos), lstsqResid_dist (ne_of_gt hcpos),
    lstd_zeros3, sqrt_sumsq_xs hcpos]
  have hs : c * (-1 - -3) / 2 = c := by ring
  rw [hs]
  have hs2 : (0 : ℝ) < Real.sqrt 2 := Real.sqrt_pos.mpr (by norm_num)
  have hval : c / ((0 + 1e-9) / (Real.sqrt 2 / c)) = Real.sqrt 2 * 1e9 := by
    rw [zero_add]
    field_simp
    ring
  rw [hval]
  exact abs_of_nonneg (by positivity)

theorem tValue_share {c : ℝ} (hc : c ≠ 0) :
    tValue [-(1 / c), 0, 1 / c] [(0 : ℝ), 0, 0] = 0 := by
  unfold tValue
  rw [lstsqSlope_xs hc]
  norm_num

theorem slope_conf_dist_eval :
    slope_conf [(-3 : ℝ), -2, -1] =
      (Real.sqrt (2 / 3) + 1e-9, Real.sqrt 2 * 1e9) := by
  unfold slope_conf
  rw [if_neg (by norm_num)]
  have hlen : ([(-3 : ℝ), -2, -1]).length = 3 := rfl
  rw [hlen, stdAbscissa_three]
  have hcpos := sqrt23_add_pos
  have hslope := lstsqSlope_xs (ne_of_gt hcpos) (-3 : ℝ) (-2) (-1)
  have hs : (Real.sqrt (2 / 3) + 1e-9) * (-1 - -3) / 2 =
      Real.sqrt (2 / 3) + 1e-9 := by ring
  rw [Prod.mk.injEq]
  refine ⟨by rw [hslope, hs], ?_⟩
  rw [tValue_dist hcpos]

theorem slope_conf_share_eval :
    slope_conf [(0 : ℝ), 0, 0] = (0, 0) := by
  unfold slope_conf
  rw [if_neg (by norm_num)]
  have hlen : ([(0 : ℝ), 0, 0]).length = 3 := rfl
  rw [hlen, stdAbscissa_three]
  have hcpos := sqrt23_add_pos
  have hslope := lstsqSlope_xs (ne_of_gt hcpos) (0 : ℝ) 0 0
  rw [Prod.mk.injEq]
  refine ⟨by rw [hslope]; ring, ?_⟩
  rw [tValue_share (ne_of_gt hcpos)]

/-- C5 (amended): in the focus-shift rule, when the series are long enough,
exactly one of the two trends confirms, and both soft slope conditions hold
(so the rule still fires), the emitted confidence equals the
scaled-t-statistic confidence multiplied by 0.6 — not by one half — and the
final clip to `[0, 1]` leaves it unchanged since the base confidence
already lies in `[0, 1]`. -/
theorem focus_shift_single_trend_conf (distSeries shareSeries : List ℝ)
    (n : ℕ) (hd : 3 ≤ distSeries.length) (hs : 3 ≤ shareSeries.length)
    (hn : 4 ≤ n)
    (hvote :
      (if 0 < (slope_conf (distSeries.map (fun v => -v))).1 then 1 else 0) +
        (if 0 < (slope_conf shareSeries).1 then (1 : ℕ) else 0) = 1)
    (hsoft1 : (-0.02 : ℝ) < (slope_conf (distSeries.map (fun v => -v))).1)
    (hsoft2 : (-0.02 : ℝ) < (slope_conf shareSeries).1) :
    (signal_focus_shift distSeries shareSeries n).confidence =
      0.6 *
        (min 1 (0.5 * (max 0 (slope_conf (distSeries.map (fun v => -v))).2 +
            max 0 (slope_conf shareSeries).2)) *
          min 1 ((n : ℝ) / 40)) := by
  unfold signal_focus_shift
  rw [if_neg (not_or.mpr ⟨not_lt.mpr hd,
    not_or.mpr ⟨not_lt.mpr hs, not_lt.mpr hn⟩⟩)]
  dsimp only
  rw [hvote]
  rw [if_pos ⟨le_rfl, hsoft1, hsoft2⟩, if_pos rfl]
  have hA : (0 : ℝ) ≤ 0.5 * (max 0 (slope_conf (distSeries.map (fun v => -v))).2 +
      max 0 (slope_conf shareSeries).2) := by positivity
  have h40 : (0 : ℝ) ≤ (n : ℝ) / 40 := by positivity
  have hc0 : (0 : ℝ) ≤ min 1 (0.5 * (max 0 (slope_conf (distSeries.map (fun v => -v))).2 +
      max 0 (slope_conf shareSeries).2)) * min 1 ((n : ℝ) / 40) :=
    mul_nonneg (le_min zero_le_one hA) (le_min zero_le_one h40)
  have hc1 : min 1 (0.5 * (max 0 (slope_conf (distSeries.map (fun v => -v))).2 +
      max 0 (slope_conf shareSeries).2)) * min 1 ((n : ℝ) / 40) ≤ 1 :=
    mul_le_one₀ (min_le_left _ _) (le_min zero_le_one h40) (min_le_left _ _)
  rw [clip_of_mem (mul_nonneg hc0 (by norm_num))
    (by nlinarith)]
  ring

theorem map_neg_321 :
    ([(3 : ℝ), 2, 1].map (fun v => -v)) = [(-3 : ℝ), -2, -1] := by
  norm_num [List.map_cons, List.map_nil]

theorem one_le_half_t : (1 : ℝ) ≤ 0.5 * (Real.sqrt 2 * 1e9 + 0) := by
  have h1 : (1 : ℝ) ≤ Real.sqrt 2 := Real.one_le_sqrt.mpr (by norm_num)
  nlinarith

theorem focus_shift_base_one :
    min 1 (0.5 * (max 0 (slope_conf ([(3 : ℝ), 2, 1].map (fun v => -v))).2 +
        max 0 (slope_conf [(0 : ℝ), 0, 0]).2)) * min 1 (((40 : ℕ) : ℝ) / 40) = 1 := by
  rw [map_neg_321, slope_conf_dist_eval, slope_conf_share_eval]
  have ht : (0 : ℝ) ≤ Real.sqrt 2 * 1e9 := by positivity
  rw [show ((Real.sqrt (2 / 3) + 1e-9, Real.sqrt 2 * 1e9).2) =
      Real.sqrt 2 * 1e9 from rfl,
    show (((0 : ℝ), (0 : ℝ)).2) = (0 : ℝ) from rfl,
    max_eq_right ht, max_self]
  rw [min_eq_left one_le_half_t]
  norm_num

theorem focus_shift_not_halved_votes :
    (if 0 < (slope_conf ([(3 : ℝ), 2, 1].map (fun v => -v))).1 then 1 else 0) +
      (if 0 < (slope_conf [(0 : ℝ), 0, 0]).1 then (1 : ℕ) else 0) = 1 := by
  rw [map_neg_321, slope_conf_dist_eval, slope_conf_share_eval]
  rw [show ((Real.sqrt (2 / 3) + 1e-9, Real.sqrt 2 * 1e9).1) =
      Real.sqrt (2 / 3) + 1e-9 from rfl,
    show (((0 : ℝ), (0 : ℝ)).1) = (0 : ℝ) from rfl]
  rw [if_pos sqrt23_add_pos, if_neg (lt_irrefl (0 : ℝ))]

theorem soft_dist_fact :
    (-0.02 : ℝ) < (slope_conf ([(3 : ℝ), 2, 1].map (fun v => -v))).1 := by
  rw [map_neg_321, slope_conf_dist_eval]
  show (-0.02 : ℝ) < Real.sqrt (2 / 3) + 1e-9
  linarith [sqrt23_add_pos]

theorem soft_share_fact :
    (-0.02 : ℝ) < (slope_conf [(0 : ℝ), 0, 0]).1 := by
  rw [slope_conf_share_eval]
  show (-0.02 : ℝ) < (0 : ℝ)
  norm_num

/-- C5 (counterexample): for `dist_series = [3, 2, 1]`,
`share_series = [0, 0, 0]` and `n_samples = 40`, the distance trend
confirms (its slope is positive) while the share trend does not (its slope
is 0), the rule fires, and the base scaled-t-statistic confidence is
exactly 1; the emitted confidence is 0.6, not the halved value 0.5 the
claim predicts. -/
theorem focus_shift_not_halved :
    (0 : ℝ) < (slope_conf ([(3 : ℝ), 2, 1].map (fun v => -v))).1 ∧
    (slope_conf [(0 : ℝ), 0, 0]).1 = 0 ∧
    (signal_focus_shift [3, 2, 1] [0, 0, 0] 40).ok ∧
    (signal_focus_shift [3, 2, 1] [0, 0, 0] 40).confidence = 0.6 ∧
    min 1 (0.5 * (max 0 (slope_conf ([(3 : ℝ), 2, 1].map (fun v => -v))).2 +
        max 0 (slope_conf [(0 : ℝ), 0, 0]).2)) * min 1 (((40 : ℕ) : ℝ) / 40) = 1 ∧
    (0.6 : ℝ) ≠ (1 / 2) * 1 := by
  refine ⟨?_, ?_, ?_, ?_, focus_shift_base_one, by norm_num⟩
  · rw [map_neg_321, slope_conf_dist_eval]
    exact sqrt23_add_pos
  · rw [slope_conf_share_eval]
  · unfold signal_focus_shift
    rw [if_neg (by norm_num)]
    dsimp only
    refine ⟨?_, soft_dist_fact, soft_share_fact⟩
    rw [focus_shift_not_halved_votes]
  · unfold signal_focus_shift
    rw [if_neg (by norm_num)]
    dsimp only
    rw [focus_shift_not_halved_votes]
    rw [if_pos ⟨le_rfl, soft_dist_fact, soft_share_fact⟩, if_pos rfl]
    rw [focus_shift_base_one]
    rw [show (1 : ℝ) * 0.6 = 0.6 by norm_num]
    exact clip_of_mem (by norm_num) (by norm_num)

/-- Witness for the amended C5 at the concrete single-trend input. -/
theorem focus_shift_single_trend_conf_witness :
    (3 : ℕ) ≤ 3 ∧ (4 : ℕ) ≤ 40 ∧
    (signal_focus_shift [3, 2, 1] [0, 0, 0] 40).confidence =
      0.6 *
        (min 1 (0.5 * (max 0 (slope_conf ([(3 : ℝ), 2, 1].map (fun v => -v))).2 +
            max 0 (slope_conf [(0 : ℝ), 0, 0]).2)) *
          min 1 (((40 : ℕ) : ℝ) / 40)) :=
  ⟨le_rfl, by norm_num,
    focus_shift_single_trend_conf [3, 2, 1] [0, 0, 0] 40 (by norm_num)
      (by norm_num) (by norm_num) focus_shift_not_halved_votes
      soft_dist_fact soft_share_fact⟩

end Overview
